import Mathlib

/-!
Shallow embedding of the signal-safe crash capture subsystem of the
firebase-android-sdk NDK layer (libcrashlytics / libcrashlytics-common),
together with proofs about the embedded operations.

The embedding follows the C++ sources:
  * crashlytics/detail/memory/header.h      (allocation header, mark/unmarked/duration)
  * crashlytics/detail/memory/allocator.h   (page_allocator)
  * crashlytics/detail/memory/allocate.h    (allocate_storage / release_storage)
  * crashlytics/detail/lexical_cast.h       (integer encode/decode)
  * crashlytics/detail/scoped_writer.h and scoped_writer.cpp (streaming writer)
  * crashlytics-common/src/device_info.cpp  (device info JSON)
  * crashlytics/detail/supplementary_file.h and crashpad_handler_main.cpp
  * crashlytics/handler/detail/system_info.h (read_maps_list)
  * crashlytics/handler/detail/fgets_safe.h  (fgets_safe)
  * libcrashlytics-common/src/crashpad_interface.cpp and
    libcrashlytics/src/handler/install.cpp   (install path)

Pointers are modelled as natural-number addresses, the side effect of a
syscall (mmap/munmap/write) as an explicit event or returned byte list,
and size_t arithmetic that can wrap is modelled modulo 2^64.
-/

namespace Crashlytics

/-- Modulus of the 64-bit unsigned machine integers (C `std::size_t` on the
target platforms). -/
def U64 : Nat := 2 ^ 64

/-- `sizeof (header)` from memory/header.h; the header is statically asserted
to pack to 8 bytes. -/
def HEADER_SIZE : Nat := 8

/-- 64-bit unsigned subtraction `a - b` with wraparound, as C computes it on
`std::size_t` operands. -/
def usub (a b : Nat) : Nat := (a + (U64 - b % U64)) % U64

theorem usub_of_le {a b : Nat} (h : b ≤ a) (ha : a < U64) : usub a b = a - b := by
  unfold usub
  have hb : b < U64 := lt_of_le_of_lt h ha
  rw [Nat.mod_eq_of_lt hb]
  have h1 : a + (U64 - b) = U64 + (a - b) := by omega
  rw [h1, Nat.add_mod_left, Nat.mod_eq_of_lt (by omega)]

/-- Storage duration tag from memory/header.h. -/
inductive Duration
  | Static
  | Mmap
  | Ignorable
deriving DecidableEq

/-- The numeric value of the packed `Duration` enum in the C source. -/
def Duration.toByte : Duration → Nat
  | .Static => 0
  | .Mmap => 1
  | .Ignorable => 2

/-- `detail::unmarked`: step a marked pointer back over its header. -/
def unmarked (marked : Nat) : Nat := marked - HEADER_SIZE

/-- `detail::page_count_for_size(size, page_size)`:
`(size + sizeof (header) + page_size - 1) / page_size`. -/
def page_count_for_size (size page_size : Nat) : Nat :=
  (size + HEADER_SIZE + page_size - 1) / page_size

/-- The mutable fields of `page_allocator`: the retained partial page (null or
its base address), the page size, and the bump offset into the partial page. -/
structure AllocState where
  partial_page : Option Nat
  page_size : Nat
  page_offset : Nat
deriving DecidableEq

/-- `detail::fits`: the request fits in the tail of the retained partial page.
The C source computes `page_size - page_offset - sizeof (header) >= size` on
`std::size_t`, so the subtractions wrap modulo 2^64. -/
def fits (current : Option Nat) (page_size page_offset size : Nat) : Bool :=
  current.isSome && decide (size ≤ usub (usub page_size page_offset) HEADER_SIZE)

/-- `detail::pack`: bump-allocate `size` bytes (plus header) at the current
offset of the partial page, zeroing the cursor when the page becomes full.
Returns the new (offset, partial page) pair and the marked pointer; the header
written by `mark` tags the storage `Ignorable`. -/
def pack (page_size page_offset : Nat) (page : Nat) (size : Nat) :
    (Nat × Option Nat) × (Nat × Duration) :=
  let storage := page + page_offset
  let page_offset' := page_offset + size + HEADER_SIZE
  let cursor := if page_offset' = page_size then ((0 : Nat), (none : Option Nat))
                else (page_offset', some page)
  (cursor, (storage + HEADER_SIZE, Duration.Ignorable))

/-- `page_allocator::allocate_pages_for_size`.  The OS page mapping is an
oracle `mmap_base : Option Nat`: `some base` means `mmap` returns a fresh
zeroed mapping at `base`, `none` means `MAP_FAILED`.  Returns the new
allocator state and the marked pointer with the tag its header received. -/
def allocate_pages_for_size (st : AllocState) (mmap_base : Option Nat)
    (size : Nat) : AllocState × Option (Nat × Duration) :=
  match st.partial_page with
  | some page =>
    if fits (some page) st.page_size st.page_offset size then
      let r := pack st.page_size st.page_offset page size
      ({ st with page_offset := r.1.1, partial_page := r.1.2 }, some r.2)
    else
      let page_count := page_count_for_size size st.page_size
      match mmap_base with
      | none => (st, none)
      | some base =>
        let page_offset' :=
          usub st.page_size (usub (st.page_size * page_count) (size + HEADER_SIZE))
            % st.page_size
        let partial' := if page_offset' ≠ 0
                        then some (base + st.page_size * (page_count - 1))
                        else none
        ({ st with page_offset := page_offset', partial_page := partial' },
         some (base + HEADER_SIZE, Duration.Mmap))
  | none =>
      let page_count := page_count_for_size size st.page_size
      match mmap_base with
      | none => (st, none)
      | some base =>
        let page_offset' :=
          usub st.page_size (usub (st.page_size * page_count) (size + HEADER_SIZE))
            % st.page_size
        let partial' := if page_offset' ≠ 0
                        then some (base + st.page_size * (page_count - 1))
                        else none
        ({ st with page_offset := page_offset', partial_page := partial' },
         some (base + HEADER_SIZE, Duration.Mmap))

/-- `page_allocator::max_size`: `1024 * 1024 * 10` (the "arbitrary limit"). -/
def max_size : Nat := 1024 * 1024 * 10

/-- `page_allocator::allocate(size)`: null for a zero count, otherwise
`allocate_pages_for_size(size * sizeof (T))`.  `sizeofT` is `sizeof (T)`. -/
def allocate (st : AllocState) (mmap_base : Option Nat) (size sizeofT : Nat) :
    AllocState × Option (Nat × Duration) :=
  if size = 0 then (st, none)
  else allocate_pages_for_size st mmap_base (size * sizeofT)

/-- `page_allocator::deallocate(p, size)`: one `munmap` call, recorded as the
event `(address, length argument)`; the address is the unmarked pointer and
the length argument is `page_count_for_size(size, page_size)`. -/
def deallocate (p size page_size : Nat) : List (Nat × Nat) :=
  [(unmarked p, page_count_for_size size page_size)]

/-- `release_storage(storage)` from memory/allocate.h: read the duration tag
from the header in front of the marked pointer and call `deallocate` only for
`Mmap`-tagged storage.  `heap addr` gives the `Duration` stored in the header
at address `addr`; the returned list is the sequence of `munmap` events. -/
def release_storage (heap : Nat → Duration) (storage : Option Nat)
    (sizeofT page_size : Nat) : List (Nat × Nat) :=
  match storage with
  | none => []
  | some p =>
    if heap (unmarked p) = Duration.Mmap then deallocate p sizeofT page_size
    else []

/-- Claim C1: `release_storage` on an allocation whose header is tagged
`Ignorable` or `Static` performs no OS unmap call, and on an `Mmap`-tagged
allocation it performs exactly one unmap, at the unmarked base pointer, whose
page count argument is `ceil((size + header_size) / page_size)` — the same
`page_count_for_size` value the allocation path computed. -/
theorem release_storage_spec (heap : Nat → Duration) (p sizeofT page_size : Nat) :
    ((heap (unmarked p) = Duration.Ignorable ∨ heap (unmarked p) = Duration.Static) →
      release_storage heap (some p) sizeofT page_size = []) ∧
    (heap (unmarked p) = Duration.Mmap →
      release_storage heap (some p) sizeofT page_size =
        [(p - HEADER_SIZE, (sizeofT + HEADER_SIZE + page_size - 1) / page_size)] ∧
      page_count_for_size sizeofT page_size =
        (sizeofT + HEADER_SIZE + page_size - 1) / page_size) := by
  constructor
  · intro h
    unfold release_storage
    rcases h with h | h <;> simp [h]
  · intro h
    unfold release_storage deallocate page_count_for_size
    simp only [h]
    simp [unmarked]

/-- Witness for `release_storage_spec` at concrete inputs: an `Ignorable`
header yields no unmap event; an `Mmap` header yields the single event with
the computed page count. -/
theorem release_storage_spec_witness :
    release_storage (fun _ => Duration.Ignorable) (some 8) 16 4096 = [] ∧
    release_storage (fun _ => Duration.Mmap) (some 8) 16 4096 = [(0, 1)] := by
  refine ⟨(release_storage_spec (fun _ => Duration.Ignorable) 8 16 4096).1
            (Or.inl rfl), ?_⟩
  have h := ((release_storage_spec (fun _ => Duration.Mmap) 8 16 4096).2 rfl).1
  simpa using h

/-- Claim C2 (evaluation at the failing input): with page size 4096 and a
fresh allocator, allocating 4087 bytes leaves the bump offset at 4095, which
exceeds `page_size - header_size = 4088`; the next 16-byte request is then
served from the 1-byte tail of the partial page (the `std::size_t` expression
`page_size - page_offset - sizeof (header)` underflows modulo 2^64, so `fits`
answers true), producing an `Ignorable` bump allocation whose end offset 4119
lies past the end of the 4096-byte mapped page, instead of a fresh mapping. -/
theorem bump_offset_overflows_page :
    let st0 : AllocState := ⟨none, 4096, 0⟩
    let r1 := allocate_pages_for_size st0 (some 0) 4087
    let r2 := allocate_pages_for_size r1.1 (some 8192) 16
    r1.1.page_offset = 4095 ∧
    4096 - HEADER_SIZE < r1.1.page_offset ∧
    fits r1.1.partial_page 4096 4095 16 = true ∧
    r2.2 = some (4095 + HEADER_SIZE, Duration.Ignorable) ∧
    r2.1.page_offset = 4119 ∧
    4096 < 4095 + 16 + HEADER_SIZE := by
  decide

/-- Claim C3 (counterexample): a request of 10485761 bytes (one byte over the
10 MiB `max_size` cap) is not rejected: `allocate` forwards it to the page
mapping and returns a non-null `Mmap`-tagged pointer. -/
theorem allocate_over_cap_not_rejected :
    max_size < 10485761 ∧
    (allocate ⟨none, 4096, 0⟩ (some 0) 10485761 1).2 =
      some (HEADER_SIZE, Duration.Mmap) := by
  decide

/-- Claim C3 (amended): `max_size` advertises the 10 MiB cap, but `allocate`
never consults it: every nonzero request, in particular every request larger
than the cap, is forwarded to the page mapping, and with a successful mapping
at `base` it returns the marked pointer `base + header_size` tagged `Mmap`. -/
theorem allocate_ignores_cap (page_size base size sizeofT : Nat)
    (hsize : size ≠ 0) (_hcap : max_size < size * sizeofT) :
    max_size = 10485760 ∧
    (allocate ⟨none, page_size, 0⟩ (some base) size sizeofT).2 =
      some (base + HEADER_SIZE, Duration.Mmap) := by
  refine ⟨rfl, ?_⟩
  unfold allocate allocate_pages_for_size
  simp [hsize]

/-- Witness for `allocate_ignores_cap`: the over-cap request of
10485761 bytes with a successful mapping at base 0. -/
theorem allocate_ignores_cap_witness :
    max_size = 10485760 ∧
    (allocate ⟨none, 4096, 0⟩ (some 0) 10485761 1).2 =
      some (0 + HEADER_SIZE, Duration.Mmap) :=
  allocate_ignores_cap 4096 0 10485761 1 (by decide) (by decide)

/-! ### Static fallback storage (memory/allocate.h) -/

/-- The function-scoped static state of
`make_function_scoped_static_byte_array<T>`: the call counter and the bytes of
the static buffer `char storage[sizeof (T) + sizeof (header)]`. -/
structure StaticSlot where
  call_count : Nat
  content : List Nat
deriving DecidableEq

/-- `make_function_scoped_static_byte_array<T>()`: bump the call counter,
`memset` the whole static buffer to zero, write the `Static` header via
`mark` (its byte value is 0, so the zeroed buffer is unchanged), and return
the marked pointer `slot_addr + header_size`.  `sizeofT` is `sizeof (T)` and
`slot_addr` the fixed address of the static buffer. -/
def make_function_scoped_static_byte_array (sizeofT slot_addr : Nat)
    (st : StaticSlot) : StaticSlot × Nat :=
  ({ call_count := st.call_count + 1,
     content := (List.replicate (sizeofT + HEADER_SIZE) 0).set 0
       Duration.Static.toByte },
   slot_addr + HEADER_SIZE)

/-- `get_static_storage<T>()`: placement-construct `T` into the static byte
array.  The bytes the constructor stores are abstracted as `init`
(`sizeof (T)` bytes); the header bytes are left as written. -/
def get_static_storage (sizeofT slot_addr : Nat) (init : List Nat)
    (st : StaticSlot) : StaticSlot × Nat :=
  let r := make_function_scoped_static_byte_array sizeofT slot_addr st
  ({ r.1 with content := r.1.content.take HEADER_SIZE ++ init }, r.2)

/-- `allocate_storage<T>()`: construct a fresh `page_allocator<T>` (automatic
variable, so its partial page is null), try `allocate(1)`, and fall back to
the static storage when the result is null.  Returns the new static-slot
state and the returned (never-null) marked pointer address. -/
def allocate_storage (mmap_base : Option Nat) (page_size sizeofT slot_addr : Nat)
    (init : List Nat) (st : StaticSlot) : StaticSlot × Nat :=
  let alloc0 : AllocState := ⟨none, page_size, 0⟩
  match (allocate alloc0 mmap_base 1 sizeofT).2 with
  | some r => (st, r.1)
  | none => get_static_storage sizeofT slot_addr init st

/-- Claim C4: when the page mapping fails (`mmap_base = none`), two sequential
`allocate_storage<T>()` calls for the same `T` both return the non-null
static-fallback pointer `slot_addr + header_size`, the same slot both times;
the second call destroys the first call's content (the slot is re-zeroed and
then holds only the second construction's bytes, with the `Static` header
intact), and neither call fails. -/
theorem allocate_storage_mmap_failure (page_size sizeofT slot_addr : Nat)
    (init1 init2 : List Nat) (st0 : StaticSlot) :
    let r1 := allocate_storage none page_size sizeofT slot_addr init1 st0
    let r2 := allocate_storage none page_size sizeofT slot_addr init2 r1.1
    r1.2 = slot_addr + HEADER_SIZE ∧
    r2.2 = slot_addr + HEADER_SIZE ∧
    r1.2 = r2.2 ∧
    0 < r1.2 ∧ 0 < r2.2 ∧
    r2.1.call_count = st0.call_count + 2 ∧
    r2.1.content = List.replicate HEADER_SIZE 0 ++ init2 := by
  intro r1 r2
  have hcontent : ∀ k : Nat,
      ((List.replicate (k + HEADER_SIZE) (0 : Nat)).set 0
        Duration.Static.toByte).take HEADER_SIZE = List.replicate HEADER_SIZE 0 := by
    intro k
    have hk : HEADER_SIZE ≤ k + HEADER_SIZE := Nat.le_add_left _ _
    rw [show k + HEADER_SIZE = HEADER_SIZE + k from Nat.add_comm _ _,
        List.replicate_add]
    simp [HEADER_SIZE, Duration.toByte, List.replicate, List.set]
  have hpos : 0 < slot_addr + HEADER_SIZE :=
    Nat.lt_of_lt_of_le (by decide) (Nat.le_add_left _ _)
  refine ⟨rfl, rfl, rfl, hpos, hpos, rfl, ?_⟩
  show (get_static_storage sizeofT slot_addr init2 _).1.content = _
  unfold get_static_storage make_function_scoped_static_byte_array
  simpa using hcontent sizeofT

/-! ### Installation path (install.cpp and crashpad_interface.cpp) -/

/-- The process-wide observable state of the installation path: how many
times the `CrashpadClient` constructor ran (the function-local static in
`GetCrashpadClient`), how many `atexit(finalize)` registrations were made,
and how many times the engine's start routine was invoked. -/
structure CrashpadState where
  client_constructed : Nat
  atexit_registrations : Nat
  start_invocations : Nat
deriving DecidableEq

/-- The state before any install call. -/
def crashpad_initial : CrashpadState := ⟨0, 0, 0⟩

/-- `GetCrashpadClient()`: the function-local `static crashpad::CrashpadClient*`
is constructed on the first call only (the compiler's atomic once-guard); every
later call returns the same object. -/
def GetCrashpadClient (s : CrashpadState) : CrashpadState :=
  if s.client_constructed = 0 then { s with client_constructed := 1 } else s

/-- `install_signal_handler_linker`: registers `atexit(finalize)`, obtains the
client via `GetCrashpadClient`, and invokes `StartHandlerWithLinkerAtCrash`.
The engine's return value is the oracle `start_result`. -/
def install_signal_handler_linker (start_result : Bool) (s : CrashpadState) :
    CrashpadState × Bool :=
  let s1 := { s with atexit_registrations := s.atexit_registrations + 1 }
  let s2 := GetCrashpadClient s1
  ({ s2 with start_invocations := s2.start_invocations + 1 }, start_result)

/-- `install_signal_handler_java`: same shape as the linker strategy —
`atexit(finalize)`, `GetCrashpadClient`, then `StartJavaHandlerAtCrash`. -/
def install_signal_handler_java (start_result : Bool) (s : CrashpadState) :
    CrashpadState × Bool :=
  let s1 := { s with atexit_registrations := s.atexit_registrations + 1 }
  let s2 := GetCrashpadClient s1
  ({ s2 with start_invocations := s2.start_invocations + 1 }, start_result)

/-- `install_signal_handler`: pick the Java or linker strategy (the
capability probe `get_handler_trampoline` is the oracle `use_java`) and run
it; no guard is consulted before doing so. -/
def install_signal_handler (use_java : Bool) (start_result : Bool)
    (s : CrashpadState) : CrashpadState × Bool :=
  if use_java then install_signal_handler_java start_result s
  else install_signal_handler_linker start_result s

/-- `install_handlers`: logs and delegates to `install_signal_handler`. -/
def install_handlers (use_java : Bool) (start_result : Bool)
    (s : CrashpadState) : CrashpadState × Bool :=
  install_signal_handler use_java start_result s

/-- Claim C6 (counterexample): from the initial state, a first install call
whose engine start succeeds (returns true) followed by a second install call
whose engine start fails shows the second call is not a no-op: it registers a
second `atexit` hook, invokes the engine's start routine a second time, and
returns that second invocation's result `false`, not the already-established
success state `true`.  Only the `CrashpadClient` construction happened once. -/
theorem install_twice_not_noop :
    let r1 := install_handlers false true crashpad_initial
    let r2 := install_handlers false false r1.1
    r1.2 = true ∧ r2.2 = false ∧
    r2.1.start_invocations = 2 ∧
    r2.1.atexit_registrations = 2 ∧
    r2.1.client_constructed = 1 := by
  decide

/-- Claim C6 (amended): two sequential install calls construct the
`CrashpadClient` exactly once (the function-local static's once-guard), but
the second call is not a no-op: each call registers an `atexit` hook and
invokes the engine's start routine, and each call returns its own engine
invocation's result rather than a cached success state. -/
theorem install_twice_one_client (u1 u2 r1 r2 : Bool) :
    (install_handlers u2 r2 (install_handlers u1 r1 crashpad_initial).1).1.client_constructed
        = 1 ∧
    (install_handlers u2 r2 (install_handlers u1 r1 crashpad_initial).1).1.start_invocations
        = 2 ∧
    (install_handlers u2 r2 (install_handlers u1 r1 crashpad_initial).1).1.atexit_registrations
        = 2 ∧
    (install_handlers u1 r1 crashpad_initial).2 = r1 ∧
    (install_handlers u2 r2 (install_handlers u1 r1 crashpad_initial).1).2 = r2 := by
  cases u1 <;> cases u2 <;> cases r1 <;> cases r2 <;> decide

/-! ### lexical_cast (detail/lexical_cast.h) -/

/-- The digits produced by the encoding loop `buffer[length++] = alphabet(t % base);
t /= base;`, least significant first.  For a digit value `d < 16`,
`Nat.digitChar d` is exactly what both source alphabets produce: `t + '0'`
for the decimal alphabet and `hex[t]` (over `"0123456789abcdef"`) for hex.
The first argument is fuel bounding the number of loop iterations; with fuel
at least `t` the loop always terminates before the fuel does, so the
embedding calls this with fuel `t`. -/
def rev_digits_core (base : Nat) : Nat → Nat → List Char
  | 0, _ => []
  | fuel + 1, t =>
    if t = 0 then [] else Nat.digitChar (t % base) :: rev_digits_core base fuel (t / base)

/-- The base-10 encoding loop of `lexical_cast(t, buffer)`. -/
def rev_digits_dec (t : Nat) : List Char := rev_digits_core 10 t t

/-- The base-16 encoding loop of `lexical_cast_hex(t, buffer)`. -/
def rev_digits_hex (t : Nat) : List Char := rev_digits_core 16 t t

/-- `lexical_cast(t, buffer)` (decimal encode): zero emits the default
literal `"0"`, otherwise the digit loop runs and the buffer is reversed. -/
def lexical_cast_encode (t : Nat) : List Char :=
  if t = 0 then ['0'] else (rev_digits_dec t).reverse

/-- `lexical_cast_hex(t, buffer)`: zero emits the default literal
`"00000000"`, otherwise the base-16 digit loop runs and is reversed. -/
def lexical_cast_hex_encode (t : Nat) : List Char :=
  if t = 0 then "00000000".toList else (rev_digits_hex t).reverse

/-- The skip loop of the decoding `lexical_cast<T>(buffer, length)`:
`while ((*p < '0' || *p > '9') && distance(buffer, p) < length) ++p;`.
Reading past the end of the modelled buffer behaves as hitting the NUL
terminator (a non-digit), which the loop keeps skipping. -/
def skip_nondigits : List Char → Nat → List Char
  | s, 0 => s
  | [], _ => []
  | c :: cs, n + 1 => if c < '0' ∨ '9' < c then skip_nondigits cs n else c :: cs

/-- The digit run parsed by the platform `atoi`/`atoll` that
`integral_converter` delegates to, on a string whose first character is a
digit (or empty): successive `result * 10 + digit`.  This models the libc
conversion exactly for results below `LLONG_MAX`; above it `atoll` overflows,
which is why the round-trip theorem is stated below `2^63`. -/
def parse_digit_run (acc : Nat) : List Char → Nat
  | [] => acc
  | c :: cs =>
    if c < '0' ∨ '9' < c then acc
    else parse_digit_run (acc * 10 + (c.toNat - 48)) cs

/-- `lexical_cast<T>(buffer, length)` (decode): skip the non-digit prefix,
then convert the digit run. -/
def lexical_cast_decode (buffer : List Char) (length : Nat) : Nat :=
  parse_digit_run 0 (skip_nondigits buffer length)

theorem digitChar_not_nondigit {d : Nat} (hd : d < 10) :
    ¬(Nat.digitChar d < '0' ∨ '9' < Nat.digitChar d) := by
  have h : ∀ e < 10, ¬(Nat.digitChar e < '0' ∨ '9' < Nat.digitChar e) := by decide
  exact h d hd

theorem digitChar_toNat {d : Nat} (hd : d < 10) : (Nat.digitChar d).toNat - 48 = d := by
  have h : ∀ e < 10, (Nat.digitChar e).toNat - 48 = e := by decide
  exact h d hd

theorem rev_digits_core_ten_digits (fuel : Nat) : ∀ t : Nat,
    ∀ c ∈ rev_digits_core 10 fuel t, ¬(c < '0' ∨ '9' < c) := by
  induction fuel with
  | zero =>
    intro t c hc
    simp [rev_digits_core] at hc
  | succ fuel ih =>
    intro t c hc
    rw [rev_digits_core] at hc
    by_cases h0 : t = 0
    · rw [if_pos h0] at hc
      simp at hc
    · rw [if_neg h0] at hc
      rcases List.mem_cons.mp hc with hc | hc
      · subst hc
        exact digitChar_not_nondigit (Nat.mod_lt _ (by decide))
      · exact ih (t / 10) c hc

theorem rev_digits_dec_digits (t : Nat) :
    ∀ c ∈ rev_digits_dec t, ¬(c < '0' ∨ '9' < c) :=
  rev_digits_core_ten_digits t t

theorem parse_digit_run_append (xs ys : List Char) (acc : Nat)
    (h : ∀ c ∈ xs, ¬(c < '0' ∨ '9' < c)) :
    parse_digit_run acc (xs ++ ys) = parse_digit_run (parse_digit_run acc xs) ys := by
  induction xs generalizing acc with
  | nil => simp [parse_digit_run]
  | cons c cs ih =>
    have hc := h c (List.mem_cons_self _ _)
    have hcs : ∀ c ∈ cs, ¬(c < '0' ∨ '9' < c) := fun c hm => h c (List.mem_cons_of_mem _ hm)
    simp only [List.cons_append, parse_digit_run, if_neg hc]
    exact ih _ hcs

theorem rev_digits_core_fuel_irrel (fuel fuel' : Nat) : ∀ t : Nat, t ≤ fuel →
    t ≤ fuel' → rev_digits_core 10 fuel t = rev_digits_core 10 fuel' t := by
  induction fuel generalizing fuel' with
  | zero =>
    intro t h1 _
    interval_cases t
    cases fuel' <;> simp [rev_digits_core]
  | succ fuel ih =>
    intro t h1 h2
    by_cases h0 : t = 0
    · subst h0
      cases fuel' <;> simp [rev_digits_core]
    · obtain ⟨f, rfl⟩ : ∃ f, fuel' = f + 1 := by
        cases fuel' with
        | zero => omega
        | succ f => exact ⟨f, rfl⟩
      rw [rev_digits_core, rev_digits_core, if_neg h0, if_neg h0]
      have hlt : t / 10 < t := Nat.div_lt_self (Nat.pos_of_ne_zero h0) (by decide)
      rw [ih f (t / 10) (by omega) (by omega)]

theorem rev_digits_core_zero (fuel : Nat) : rev_digits_core 10 fuel 0 = [] := by
  cases fuel <;> simp [rev_digits_core]

theorem parse_rev_digits_core (fuel : Nat) : ∀ t acc : Nat, t ≤ fuel → t ≠ 0 →
    parse_digit_run acc (rev_digits_core 10 fuel t).reverse =
      acc * 10 ^ (rev_digits_core 10 fuel t).length + t := by
  induction fuel with
  | zero =>
    intro t acc h1 h0
    omega
  | succ fuel ih =>
    intro t acc h1 h0
    rw [rev_digits_core, if_neg h0]
    simp only [List.reverse_cons, List.length_cons]
    rw [parse_digit_run_append _ _ _ (by
      intro c hc
      exact rev_digits_core_ten_digits fuel (t / 10) c (List.mem_reverse.mp hc))]
    have hd : ¬(Nat.digitChar (t % 10) < '0' ∨ '9' < Nat.digitChar (t % 10)) :=
      digitChar_not_nondigit (Nat.mod_lt _ (by decide))
    have hlt : t / 10 < t := Nat.div_lt_self (Nat.pos_of_ne_zero h0) (by decide)
    by_cases h10 : t / 10 = 0
    · have ht10 : t % 10 = t := by omega
      rw [h10, rev_digits_core_zero]
      simp only [List.reverse_nil, List.length_nil, parse_digit_run, if_neg hd,
        Nat.zero_add, pow_one]
      rw [digitChar_toNat (Nat.mod_lt _ (by decide)), ht10]
    · rw [ih (t / 10) acc (by omega) h10]
      simp only [parse_digit_run, if_neg hd, List.length_reverse]
      rw [digitChar_toNat (Nat.mod_lt _ (by decide))]
      have hsplit : (acc * 10 ^ (rev_digits_core 10 fuel (t / 10)).length + t / 10) * 10
            + t % 10 =
          acc * (10 ^ (rev_digits_core 10 fuel (t / 10)).length * 10)
            + (t / 10 * 10 + t % 10) := by
        ring
      rw [hsplit, pow_succ]
      omega

theorem parse_rev_digits_dec (t : Nat) (ht : t ≠ 0) : ∀ acc : Nat,
    parse_digit_run acc (rev_digits_dec t).reverse =
      acc * 10 ^ (rev_digits_dec t).length + t := fun acc =>
  parse_rev_digits_core t t acc (Nat.le_refl t) ht

/-- Claim C7 (counterexample): the hex encoding does not round-trip through
`lexical_cast<T>(buffer, length)`: 16 encodes to the hex digits `"10"`, but
the decoder parses a decimal digit run (via `atoi`/`atoll`), so decoding
yields 10, not the original 16. -/
theorem hex_round_trip_fails :
    lexical_cast_hex_encode 16 = ['1', '0'] ∧
    lexical_cast_decode (lexical_cast_hex_encode 16)
      (lexical_cast_hex_encode 16).length = 10 ∧ (10 : Nat) ≠ 16 := by
  refine ⟨?_, ?_, by decide⟩ <;>
    simp [lexical_cast_hex_encode, rev_digits_hex, lexical_cast_decode,
      skip_nondigits, parse_digit_run] <;> decide

/-- Claim C7 (amended): the decimal encode/decode pair round-trips for every
unsigned value below `2^63` (`LLONG_MAX + 1`; beyond that the decode's
delegation to the signed `atoll` overflows), including 0, 1, and the in-range
powers of two plus or minus one; the hex encoding has no matching decoder
(the decode parses decimal only, see `hex_round_trip_fails`). -/
theorem lexical_cast_decimal_round_trip (v : Nat) (hv : v < 2 ^ 63) :
    lexical_cast_decode (lexical_cast_encode v) (lexical_cast_encode v).length = v := by
  by_cases h0 : v = 0
  · subst h0
    decide
  · unfold lexical_cast_encode
    rw [if_neg h0]
    have hne : rev_digits_dec v ≠ [] := by
      obtain ⟨f, rfl⟩ : ∃ f, v = f + 1 := by
        cases v with
        | zero => omega
        | succ f => exact ⟨f, rfl⟩
      rw [rev_digits_dec, rev_digits_core, if_neg h0]
      simp
    have hrev : (rev_digits_dec v).reverse ≠ [] := by
      simpa using hne
    obtain ⟨c, cs, hcons⟩ := List.exists_cons_of_ne_nil hrev
    have hcdig : ¬(c < '0' ∨ '9' < c) := by
      have : c ∈ rev_digits_dec v := by
        rw [← List.mem_reverse, hcons]
        exact List.mem_cons_self _ _
      exact rev_digits_dec_digits v c this
    have hskip : skip_nondigits (rev_digits_dec v).reverse
        ((rev_digits_dec v).reverse).length = (rev_digits_dec v).reverse := by
      rw [hcons]
      simp only [List.length_cons, skip_nondigits, if_neg hcdig]
    unfold lexical_cast_decode
    rw [hskip, parse_rev_digits_dec v h0 0]
    simp

/-- Witness for `lexical_cast_decimal_round_trip` at the concrete value 73. -/
theorem lexical_cast_decimal_round_trip_witness :
    73 < 2 ^ 63 ∧
    lexical_cast_decode (lexical_cast_encode 73) (lexical_cast_encode 73).length = 73 :=
  ⟨by decide, lexical_cast_decimal_round_trip 73 (by decide)⟩

/-! ### Streaming structured writer (scoped_writer.h / scoped_writer.cpp)

Each `impl::write` overload performs raw `write` syscalls on the file
descriptor; the embedding returns the byte sequence those syscalls emit, and
composition of writes is concatenation. -/

/-- Delimiter choice of `scoped_writer` (`Comma`, `None`, `NewLine`). -/
inductive Delimiter
  | Comma
  | None
  | NewLine
deriving DecidableEq

/-- The bytes a delimiter contributes after a value. -/
def delimiter_bytes : Delimiter → List Char
  | Delimiter.Comma => [',']
  | Delimiter.None => []
  | Delimiter.NewLine => ['\n']

/-- `impl::write(int, uint64_t)`: decimal text via `lexical_cast`. -/
def impl_write_u64 (value : Nat) : List Char := lexical_cast_encode value

/-- `impl::write(int, bool)`: the literal `true` or `false`. -/
def impl_write_bool (value : Bool) : List Char :=
  if value then "true".toList else "false".toList

/-- `impl::write(int, const char*)`: the value wrapped in double quotes, with
one trailing newline (if any) trimmed. -/
def impl_write_cstr (value : List Char) : List Char :=
  '"' :: (if value.getLast? = some '\n' then value.dropLast else value) ++ ['"']

/-- `scoped_writer::write(key, uint64_t value, delimiter)`: quoted key,
colon, decimal value, then the chosen delimiter. -/
def scoped_writer_write_u64 (key : List Char) (value : Nat) (d : Delimiter) :
    List Char :=
  impl_write_cstr key ++ ':' :: impl_write_u64 value ++ delimiter_bytes d

/-- `scoped_writer::write(key, bool value, delimiter)`. -/
def scoped_writer_write_bool (key : List Char) (value : Bool) (d : Delimiter) :
    List Char :=
  impl_write_cstr key ++ ':' :: impl_write_bool value ++ delimiter_bytes d

/-- `scoped_writer::wrapped` without a key: the opening character at
construction, the body, then the closing character and delimiter at
destruction. -/
def wrapped_scope (openc closec : Char) (d : Delimiter) (body : List Char) :
    List Char :=
  openc :: body ++ closec :: delimiter_bytes d

/-- `google::crashlytics::write_device_info(fd)` from
libcrashlytics-common/src/device_info.cpp: orientation is hardcoded to 0 and
`proximity_enabled` to `false`; `memory`, `storage` and `battery` are the
values the OS queries returned.  Returns the bytes written to the fd. -/
def write_device_info (memory storage : Nat × Nat) (battery : Nat) : List Char :=
  let orientation : Nat := 0
  wrapped_scope '\x7b' '\x7d' Delimiter.None
    (scoped_writer_write_u64 "orientation".toList orientation Delimiter.Comma ++
     scoped_writer_write_u64 "total_physical_memory".toList memory.1 Delimiter.Comma ++
     scoped_writer_write_u64 "total_internal_storage".toList storage.1 Delimiter.Comma ++
     scoped_writer_write_u64 "available_physical_memory".toList memory.2 Delimiter.Comma ++
     scoped_writer_write_u64 "available_internal_storage".toList storage.2 Delimiter.Comma ++
     scoped_writer_write_u64 "battery".toList battery Delimiter.Comma ++
     scoped_writer_write_bool "proximity_enabled".toList false Delimiter.None)

set_option maxRecDepth 8192 in
/-- Claim C8: writing device info with memory totals (8000000000, 2000000000),
storage (50000000000, 10000000000) and battery 73 (orientation 0 and
proximity false being hardcoded) emits exactly the expected JSON byte
sequence, with fixed key order, quoted keys, unsigned decimal values, the
boolean literal, no trailing comma, and balanced braces. -/
theorem write_device_info_bytes :
    write_device_info (8000000000, 2000000000) (50000000000, 10000000000) 73 =
      ("\x7b\"orientation\":0,\"total_physical_memory\":8000000000,\"total_internal_storage\":50000000000,\"available_physical_memory\":2000000000,\"available_internal_storage\":10000000000,\"battery\":73,\"proximity_enabled\":false\x7d").toList := by
  decide

/-! ### Supplementary file naming (supplementary_file.h, crashpad_handler_main.cpp) -/

/-- Index of the last occurrence of `c` in `s` (`std::strrchr`), if any. -/
def strrchr_idx (s : List Char) (c : Char) : Option Nat :=
  match s with
  | [] => none
  | d :: ds =>
    match strrchr_idx ds c with
    | some i => some (i + 1)
    | none => if d = c then some 0 else none

/-- `make_suppliment_path_from(path, suffix, buffer)`: copy the path up to
(excluding) its last `.` and append the suffix.  When the path has no `.`,
the source computes `std::distance(path, nullptr)` — undefined behaviour —
so the embedding returns `[]` there and every theorem assumes a dot is
present. -/
def make_suppliment_path_from (path suffix : List Char) : List Char :=
  match strrchr_idx path '.' with
  | some i => path.take i ++ suffix
  | none => []

/-- The `path_spec.substr(path_spec.find('=') + 1, ...)` step of
`CrashpadHandlerMain`: everything after the first `=`.  When there is no
`=`, `find` returns `npos` and `npos + 1` wraps to 0, so the whole string is
kept. -/
def after_first_eq (s : List Char) : List Char :=
  match s.findIdx? (· = '=') with
  | some i => s.drop (i + 1)
  | none => s

/-- The supplementary files `CrashpadHandlerMain` (the crash callback in
libcrashlytics-common/src/crashpad_handler_main.cpp) attempts to write,
given `argv[1]`: the dump path is the database directory from `argv[1]`
joined with `"/supp.files"`, and the only `write_supplimentary_file` call
uses the suffix `".device_info"`. -/
def crashpad_handler_main_supp_paths (argv1 : List Char) : List (List Char) :=
  let path := after_first_eq argv1 ++ "/supp.files".toList
  [make_suppliment_path_from path ".device_info".toList]

/-- Claim C5 (counterexample): with `argv[1] = "--database=/data/ndk"`, the
crash callback attempts exactly one supplementary file,
`/data/ndk/supp.device_info`; no `.maps` sibling (`/data/ndk/supp.maps`) is
ever attempted, so the claim that both files are written is false. -/
theorem crashpad_handler_main_writes_only_device_info :
    crashpad_handler_main_supp_paths ("--database=/data/ndk").toList =
      [("/data/ndk/supp.device_info").toList] ∧
    ("/data/ndk/supp.maps").toList ∉
      crashpad_handler_main_supp_paths ("--database=/data/ndk").toList := by
  decide

theorem strrchr_idx_append_of_some (xs ys : List Char) (c : Char) (k : Nat)
    (h : strrchr_idx ys c = some k) :
    strrchr_idx (xs ++ ys) c = some (xs.length + k) := by
  induction xs with
  | nil => simpa using h
  | cons d ds ih =>
    have hstep : strrchr_idx (d :: (ds ++ ys)) c =
        match strrchr_idx (ds ++ ys) c with
        | some i => some (i + 1)
        | none => if d = c then some 0 else none := rfl
    rw [List.cons_append, hstep, ih]
    show some (ds.length + k + 1) = some ((d :: ds).length + k)
    rw [List.length_cons]
    exact congrArg some (by omega)

/-- Claim C5 (amended): for every `argv[1]`, the crash callback attempts
exactly one supplementary file: it derives the dump path
`P = <database dir>/supp.files`, strips P's last extension and appends the
fixed suffix `".device_info"`, yielding the sibling path
`<database dir>/supp.device_info`; no `".maps"` file is attempted. -/
theorem crashpad_handler_main_supp_paths_spec (argv1 : List Char) :
    crashpad_handler_main_supp_paths argv1 =
      [after_first_eq argv1 ++ "/supp.device_info".toList] ∧
    ∀ q ∈ crashpad_handler_main_supp_paths argv1,
      ¬ (".maps").toList <:+ q := by
  have hidx : strrchr_idx (after_first_eq argv1 ++ "/supp.files".toList) '.' =
      some ((after_first_eq argv1).length + 5) :=
    strrchr_idx_append_of_some _ _ _ 5 (by decide)
  have hpath : make_suppliment_path_from
      (after_first_eq argv1 ++ "/supp.files".toList) (".device_info").toList =
      after_first_eq argv1 ++ "/supp.device_info".toList := by
    unfold make_suppliment_path_from
    rw [hidx]
    show List.take ((after_first_eq argv1).length + 5)
        (after_first_eq argv1 ++ "/supp.files".toList) ++ ".device_info".toList =
      after_first_eq argv1 ++ "/supp.device_info".toList
    rw [List.take_append_eq_append_take,
        List.take_of_length_le (by omega), List.append_assoc]
    have h5 : (after_first_eq argv1).length + 5 - (after_first_eq argv1).length = 5 := by
      omega
    rw [h5]
    rfl
  have hpaths : crashpad_handler_main_supp_paths argv1 =
      [after_first_eq argv1 ++ "/supp.device_info".toList] := by
    show [make_suppliment_path_from
        (after_first_eq argv1 ++ "/supp.files".toList) (".device_info").toList] = _
    rw [hpath]
  refine ⟨hpaths, ?_⟩
  intro q hq
  rw [hpaths] at hq
  rcases List.mem_singleton.mp hq with rfl
  intro hsuf
  obtain ⟨u, hu⟩ := hsuf
  have hlast := congrArg List.getLast? hu
  rw [List.getLast?_append_of_ne_nil u (by decide),
      List.getLast?_append_of_ne_nil (after_first_eq argv1) (by decide)] at hlast
  simp at hlast

/-! ### Maps streaming (handler/detail/system_info.h, handler/device_info.cpp) -/

/-- `default_maps_buffer_size()`: the 1 KB chunk buffer of `read_maps_list`. -/
def default_maps_buffer_size : Nat := 1024

/-- The loop of `read_maps_list` combined with the consumer that
`write_binary_libs` passes to it: `while (read(fd, buffer) > 0)
func(buffer, sizeof buffer);` where `func` writes the whole buffer to the
output fd.  `remaining` is the unread suffix of the pseudo-file's content
(each `read` returns the next up-to-1024 bytes), `buffer` is the current
contents of the 1024-byte stack buffer (zero-initialised by the caller, and
only partially overwritten by a short read), and the result is the
concatenation of all bytes written to the output file. -/
def read_maps_list_core : Nat → List Nat → List Nat → List Nat
  | 0, _, _ => []
  | fuel + 1, remaining, buffer =>
    match remaining with
    | [] => []
    | _ :: _ =>
      let chunk := remaining.take default_maps_buffer_size
      let buffer' := chunk ++ buffer.drop chunk.length
      buffer' ++ read_maps_list_core fuel (remaining.drop default_maps_buffer_size) buffer'

/-- The loop with its natural fuel: each iteration consumes at least one byte
of the remaining content, so `remaining.length` iterations always suffice. -/
def read_maps_list (remaining buffer : List Nat) : List Nat :=
  read_maps_list_core remaining.length remaining buffer

/-- `write_binary_libs` output: stream the maps pseudo-file `content` through
the zero-initialised 1024-byte buffer. -/
def write_binary_libs (content : List Nat) : List Nat :=
  read_maps_list content (List.replicate default_maps_buffer_size 0)

theorem read_maps_list_core_of_dvd : ∀ fuel content buffer,
    content.length ≤ fuel →
    buffer.length = default_maps_buffer_size →
    default_maps_buffer_size ∣ content.length →
    read_maps_list_core fuel content buffer = content := by
  intro fuel
  induction fuel with
  | zero =>
    intro content buffer hfuel _ _
    have : content = [] := List.eq_nil_of_length_eq_zero (by omega)
    subst this
    rfl
  | succ fuel ih =>
    intro content buffer hfuel hbuf hdvd
    match content with
    | [] => rfl
    | c :: cs =>
      rw [read_maps_list_core]
      have hge : default_maps_buffer_size ≤ (c :: cs).length := by
        rcases hdvd with ⟨k, hk⟩
        rcases Nat.eq_zero_or_pos k with hk0 | hk0
        · simp [hk0] at hk
        · calc default_maps_buffer_size = default_maps_buffer_size * 1 := by omega
            _ ≤ default_maps_buffer_size * k := Nat.mul_le_mul_left _ hk0
            _ = (c :: cs).length := hk.symm
      have htake : ((c :: cs).take default_maps_buffer_size).length =
          default_maps_buffer_size := by
        rw [List.length_take]
        omega
      have hdropbuf : buffer.drop ((c :: cs).take default_maps_buffer_size).length
          = [] := by
        rw [htake, List.drop_eq_nil_iff]
        omega
      simp only [hdropbuf, List.append_nil]
      have hrec : read_maps_list_core fuel ((c :: cs).drop default_maps_buffer_size)
          ((c :: cs).take default_maps_buffer_size) =
          (c :: cs).drop default_maps_buffer_size := by
        apply ih
        · rw [List.length_drop]
          have hpos : 0 < default_maps_buffer_size := by decide
          omega
        · rw [htake]
        · rw [List.length_drop]
          exact Nat.dvd_sub' hdvd dvd_rfl
      rw [hrec, List.take_append_drop]

/-- Claim C9 (counterexample): streaming a 6-byte maps pseudo-file (the bytes
of `"hello\n"`) writes 1024 bytes, not 6: the consumer is called with
`sizeof buffer`, so the short final read is padded with the residual bytes of
the zero-initialised buffer, and the output is not a byte-for-byte copy. -/
theorem write_binary_libs_pads_short_content :
    write_binary_libs [104, 101, 108, 108, 111, 10] =
      [104, 101, 108, 108, 111, 10] ++ List.replicate 1018 0 ∧
    (write_binary_libs [104, 101, 108, 108, 111, 10]).length = 1024 ∧
    write_binary_libs [104, 101, 108, 108, 111, 10] ≠
      [104, 101, 108, 108, 111, 10] := by
  have h : write_binary_libs [104, 101, 108, 108, 111, 10] =
      [104, 101, 108, 108, 111, 10] ++ List.replicate 1018 0 := by
    show ([104, 101, 108, 108, 111, 10] ++
        (List.replicate default_maps_buffer_size 0).drop
          ([104, 101, 108, 108, 111, 10].take default_maps_buffer_size).length) ++
      read_maps_list_core 5 ([104, 101, 108, 108, 111, 10].drop default_maps_buffer_size) _
        = _
    rw [List.drop_replicate]
    have hdrop : [104, 101, 108, 108, 111, 10].drop default_maps_buffer_size
        = ([] : List Nat) := by decide
    rw [hdrop]
    show ([104, 101, 108, 108, 111, 10] ++ List.replicate (1024 - 6) 0) ++ [] = _
    rw [List.append_nil]
  refine ⟨h, ?_, ?_⟩
  · rw [h, List.length_append, List.length_replicate]
    rfl
  · rw [h]
    intro hcontr
    have hlen := congrArg List.length hcontr
    rw [List.length_append, List.length_replicate] at hlen
    omega

/-- Claim C9 (amended): the maps output is a byte-for-byte copy of the
pseudo-file content exactly when the content length is a multiple of the
1024-byte chunk size (each full chunk is written verbatim); a short final
chunk is padded to a full 1024-byte write with the residual bytes of the
buffer, as `write_binary_libs_pads_short_content` shows. -/
theorem write_binary_libs_verbatim_of_dvd (content : List Nat)
    (h : default_maps_buffer_size ∣ content.length) :
    write_binary_libs content = content :=
  read_maps_list_core_of_dvd content.length content
    (List.replicate default_maps_buffer_size 0) (Nat.le_refl _)
    (by rw [List.length_replicate]) h

/-- Witness for `write_binary_libs_verbatim_of_dvd`: a content of exactly
1024 bytes (value 7) is streamed verbatim. -/
theorem write_binary_libs_verbatim_witness :
    default_maps_buffer_size ∣ (List.replicate 1024 (7 : Nat)).length ∧
    write_binary_libs (List.replicate 1024 (7 : Nat)) = List.replicate 1024 (7 : Nat) :=
  ⟨by rw [List.length_replicate]; decide,
   write_binary_libs_verbatim_of_dvd (List.replicate 1024 7)
     (by rw [List.length_replicate]; decide)⟩

/-! ### Signal-safe line reading (handler/detail/fgets_safe.h) -/

/-- The NUL byte; `memset` fills the storage buffer with it, and `strchr`
treats it as the string terminator. -/
def NUL : Char := Char.ofNat 0

/-- `detail::find_line_break(line)`: `strchr(line, '\n')` stops at the first
NUL byte (the C-string terminator), so the search yields the distance to the
first newline plus one when a newline occurs before any NUL, and otherwise
the distance to the first NUL (`strchr(line, '\0')`).  The end of the
modelled list plays the role of the terminator when the list holds no NUL. -/
def find_line_break : List Char → Nat
  | [] => 0
  | c :: cs => if c = '\n' then 1 else if c = NUL then 0 else find_line_break cs + 1

/-- `fgets_safe(fd, storage, storage_size)`: the open file is modelled by its
remaining `content` and the current file offset `pos`; a single `read`
returns the next `min (storage_size - 1) (content.length - pos)` bytes.
Returns `none` where the source returns `nullptr` (nothing left to read),
otherwise the caller-visible storage contents and the repositioned file
offset (`lseek(fd, current - line_bound + offset, SEEK_SET)`). -/
def fgets_safe (content : List Char) (pos storage_size : Nat) :
    Option (List Char × Nat) :=
  let ss := storage_size - 1
  let chunk := (content.drop pos).take ss
  let bytes := chunk.length
  if bytes = 0 then none
  else
    let storage := chunk ++ List.replicate (storage_size - bytes) NUL
    let line_bound := min ss bytes
    let line_break := find_line_break storage
    let offset := if line_break ≠ 0 then line_break else ss
    let storage1 := storage.take offset ++
      List.replicate (ss - offset) NUL ++ storage.drop ss
    let storage2 := if storage1.getD (offset - 1) NUL = '\n'
                    then storage1.set (offset - 1) '|' else storage1
    some (storage2, pos + bytes - line_bound + offset)

/-- Claim C10 (counterexample): the chunk `['a', NUL, '\n', 'x']` read in one
syscall does contain a newline, but `strchr` stops at the NUL byte before it:
`fgets_safe` returns the buffer `"a"` (no `'|'` anywhere — the newline was
neither returned nor replaced) and repositions the file offset to 1, not to
3, the byte just past the newline. -/
theorem fgets_safe_nul_before_newline :
    fgets_safe ['a', NUL, '\n', 'x'] 0 8 =
      some ('a' :: List.replicate 7 NUL, 1) ∧
    (1 : Nat) ≠ 3 ∧
    '|' ∉ ('a' :: List.replicate 7 NUL) := by
  decide

theorem find_line_break_clean_append (w : List Char) : ∀ u : List Char,
    (∀ c ∈ u, c ≠ '\n' ∧ c ≠ NUL) →
    find_line_break (u ++ '\n' :: w) = u.length + 1 := by
  intro u
  induction u with
  | nil =>
    intro _
    simp [find_line_break]
  | cons c cs ih =>
    intro h
    have hc := h c (List.mem_cons_self _ _)
    have hcs := fun d hd => h d (List.mem_cons_of_mem _ hd)
    simp only [List.cons_append, find_line_break, if_neg hc.1, if_neg hc.2,
      List.length_cons]
    show find_line_break (cs ++ '\n' :: w) + 1 = cs.length + 1 + 1
    rw [ih hcs]

theorem getD_append_cons (A B : List Char) (c : Char) :
    (A ++ c :: B).getD A.length NUL = c := by
  induction A with
  | nil => rfl
  | cons a as ih => simpa using ih

theorem set_append_cons (A B : List Char) (c d : Char) :
    (A ++ c :: B).set A.length d = A ++ d :: B := by
  induction A with
  | nil => rfl
  | cons a as ih => simp [List.set, ih]

/-- Claim C10 (amended): when the chunk obtained by the single `read`
syscall contains a newline and no NUL byte precedes that newline in the
chunk, `fgets_safe` returns the line with the newline replaced by `'|'`
(and the rest of the buffer zeroed), so the caller never observes the
newline, and it repositions the file offset to the byte just past the
newline.  The chunk is written `u ++ '\n' :: v` with `u` free of newlines
and NULs, so `u` is the line and the newline sits at index `u.length`. -/
theorem fgets_safe_newline_spec (content : List Char) (pos n : Nat)
    (u v : List Char)
    (hchunk : (content.drop pos).take (n - 1) = u ++ '\n' :: v)
    (hu : ∀ c ∈ u, c ≠ '\n' ∧ c ≠ NUL) :
    fgets_safe content pos n =
      some (u ++ '|' :: List.replicate (n - 1 - u.length) NUL,
            pos + u.length + 1) ∧
    '\n' ∉ u ++ '|' :: List.replicate (n - 1 - u.length) NUL := by
  have hbytes_le : ((content.drop pos).take (n - 1)).length ≤ n - 1 := by
    rw [List.length_take]
    omega
  rw [hchunk] at hbytes_le
  have hlen : (u ++ '\n' :: v).length = u.length + 1 + v.length := by
    simp
    omega
  have hoffset_le : u.length + 1 ≤ n - 1 := by omega
  constructor
  · simp only [fgets_safe, hchunk]
    have hne : (u ++ '\n' :: v).length ≠ 0 := by
      simp
    rw [if_neg hne]
    have hflb : find_line_break ((u ++ '\n' :: v) ++
        List.replicate (n - (u ++ '\n' :: v).length) NUL) = u.length + 1 := by
      rw [List.append_assoc, List.cons_append]
      exact find_line_break_clean_append _ u hu
    rw [hflb]
    have hoff_ne : u.length + 1 ≠ 0 := by omega
    rw [if_pos hoff_ne]
    have htake : ((u ++ '\n' :: v) ++
        List.replicate (n - (u ++ '\n' :: v).length) NUL).take (u.length + 1) =
        u ++ ['\n'] := by
      rw [List.take_append_eq_append_take]
      have h1 : (u ++ '\n' :: v).take (u.length + 1) = u ++ ['\n'] := by
        rw [List.take_append_eq_append_take, List.take_of_length_le (by omega)]
        have : u.length + 1 - u.length = 1 := by omega
        rw [this]
        rfl
      have h2 : u.length + 1 - (u ++ '\n' :: v).length = 0 := by
        simp only [hlen]
        omega
      rw [h1, h2, List.take_zero, List.append_nil]
    have hdrop : ((u ++ '\n' :: v) ++
        List.replicate (n - (u ++ '\n' :: v).length) NUL).drop (n - 1) =
        [NUL] := by
      rw [List.drop_append_eq_append_drop,
          List.drop_eq_nil_iff.mpr (by omega), List.drop_replicate,
          List.nil_append]
      have : n - (u ++ '\n' :: v).length - (n - 1 - (u ++ '\n' :: v).length) = 1 := by
        simp only [hlen] at hbytes_le ⊢
        omega
      rw [this]
      rfl
    rw [htake, hdrop]
    have hmid : (u ++ ['\n']) ++
        (List.replicate (n - 1 - (u.length + 1)) NUL ++ [NUL]) =
        u ++ '\n' :: List.replicate (n - 1 - u.length) NUL := by
      rw [← List.replicate_succ']
      have : n - 1 - (u.length + 1) + 1 = n - 1 - u.length := by omega
      rw [this, List.append_assoc]
      rfl
    rw [List.append_assoc, hmid]
    have hget : (u ++ '\n' :: List.replicate (n - 1 - u.length) NUL).getD
        (u.length + 1 - 1) NUL = '\n' := by
      have h1 : u.length + 1 - 1 = u.length := by omega
      rw [h1]
      exact getD_append_cons _ _ _
    rw [if_pos hget]
    have hset : (u ++ '\n' :: List.replicate (n - 1 - u.length) NUL).set
        (u.length + 1 - 1) '|' = u ++ '|' :: List.replicate (n - 1 - u.length) NUL := by
      have h1 : u.length + 1 - 1 = u.length := by omega
      rw [h1]
      exact set_append_cons _ _ _ _
    rw [hset]
    have hpos : pos + (u ++ '\n' :: v).length -
        min (n - 1) (u ++ '\n' :: v).length + (u.length + 1) =
        pos + u.length + 1 := by
      rw [Nat.min_eq_right (by omega)]
      omega
    rw [hpos]
  · intro hmem
    rcases List.mem_append.mp hmem with hmem | hmem
    · exact (hu '\n' hmem).1 rfl
    · rcases List.mem_cons.mp hmem with hmem | hmem
      · exact absurd hmem (by decide)
      · rcases List.mem_replicate.mp hmem with ⟨_, hmem⟩
        exact absurd hmem (by decide)

/-- Witness for `fgets_safe_newline_spec`: reading from `"ab\ncd"` with an
8-byte buffer returns the line `"ab"` with the newline shown as `'|'` and
leaves the file offset at 3. -/
theorem fgets_safe_newline_spec_witness :
    (("ab\ncd".toList.drop 0).take (8 - 1) = ['a', 'b'] ++ '\n' :: ['c', 'd']) ∧
    fgets_safe "ab\ncd".toList 0 8 =
      some (['a', 'b'] ++ '|' :: List.replicate 5 NUL, 3) :=
  ⟨by decide,
   (fgets_safe_newline_spec "ab\ncd".toList 0 8 ['a', 'b'] ['c', 'd']
     (by decide) (by decide)).1⟩

end Crashlytics
